import Mathlib

/-!
Verification development for the BOLOC repository (`src/parser.py`).

The file shallowly embeds the two components of the program:
  * the BOLSIG+ cross-section parser (`parse`, `_read_block`,
    `_read_momentum`, `_read_excitation`, `_read_attachment`,
    `RE_SEP`, `RE_ARROW`, `KEYWORDS`), and
  * the minimal XML tree writer (`XMLnode`, `indent`, `write_comment`,
    `write_attribs`, `write_value`, `_write`) together with the
    record-to-tree conversion performed in `main`.

Strings are modelled as `List Char`; an input stream is a list of lines
(the trailing newline of a physical line is irrelevant because every
consumer strips each line).  Python floats are modelled as exact
decimal values (`Dec`): every numeric literal appearing in this format
and in the claims is an exact decimal, and no claim depends on binary
rounding.  Fallible Python code (exceptions) is modelled with
`Except PErr`.
-/

abbrev Chars := List Char

/-- Shorthand to write character-list literals. -/
def cs (x : String) : Chars := x.data

/-- The characters treated as whitespace by the Python methods `str.strip()` /
`str.split()`: space, tab, newline, carriage return, vertical tab and
form feed. -/
def pyIsSpace (c : Char) : Bool :=
  c = ' ' || c = '\t' || c = '\n' || c = '\r' || c = '\x0B' || c = '\x0C'

/-- Python `str.lstrip()`. -/
def pyLStrip (l : Chars) : Chars := l.dropWhile pyIsSpace

/-- Python `str.rstrip()`. -/
def pyRStrip (l : Chars) : Chars := (l.reverse.dropWhile pyIsSpace).reverse

/-- Python `str.strip()`. -/
def pyStrip (l : Chars) : Chars := pyRStrip (pyLStrip l)

/-- Helper for `pySplitWs`: accumulates the current word (reversed). -/
def pySplitWsAux : Chars → Chars → List Chars
  | [], acc => if acc = [] then [] else [acc.reverse]
  | c :: rest, acc =>
    if pyIsSpace c then
      if acc = [] then pySplitWsAux rest [] else acc.reverse :: pySplitWsAux rest []
    else pySplitWsAux rest (c :: acc)

/-- Python `str.split()` with no argument: split on runs of whitespace,
discarding empty words. -/
def pySplitWs (l : Chars) : List Chars := pySplitWsAux l []

/-- Decimal digit run to a natural number. -/
def digitsVal (ds : Chars) : Nat :=
  ds.foldl (fun n c => 10 * n + (c.toNat - '0'.toNat)) 0

/-- An exact decimal number `m * 10 ^ e`, modelling a Python float.
Every numeric literal appearing in a cross-section file and in the
claims is an exact decimal, and no claim depends on binary rounding, so
exact decimals are a faithful value model.  Values are kept canonical
(`m` is not a multiple of ten unless it is `0`, and then `e = 0`), so
that two equal decimal values have equal representations. -/
structure Dec where
  m : Int
  e : Int
deriving DecidableEq

/-- Strip factors of ten from the mantissa (fuel-bounded loop). -/
def decCanonAux : Nat → Int → Int → Dec
  | 0, m, e => ⟨m, e⟩
  | fuel + 1, m, e =>
    if m % 10 = 0 then decCanonAux fuel (m / 10) (e + 1) else ⟨m, e⟩

/-- Canonical representative of `m * 10 ^ e`. -/
def decCanon (m : Int) (e : Int) : Dec :=
  if m = 0 then ⟨0, 0⟩ else decCanonAux m.natAbs m e

/-- The Python builtin `float(s)` on the decimal forms used by the cross-section
format: optional surrounding whitespace, optional sign, a mantissa that
must contain at least one digit (`12`, `12.`, `12.5`, `.5`), and an
optional `e`/`E` exponent with optional sign.  The special spellings
`inf`/`infinity`/`nan` do not occur in numeric tables and are not
modelled; on every other non-conforming string the source raises
`ValueError`, modelled here as `none`. -/
def pyFloat (cs0 : Chars) : Option Dec :=
  let cs1 := pyStrip cs0
  let sgn : Int × Chars :=
    match cs1 with
    | '+' :: t => (1, t)
    | '-' :: t => (-1, t)
    | t => (1, t)
  let ip := sgn.2.takeWhile Char.isDigit
  let cs3 := sgn.2.dropWhile Char.isDigit
  let fpart : Chars × Chars :=
    match cs3 with
    | '.' :: t => (t.takeWhile Char.isDigit, t.dropWhile Char.isDigit)
    | t => ([], t)
  if ip = [] ∧ fpart.1 = [] then none
  else
    let m : Int := sgn.1 * (digitsVal (ip ++ fpart.1) : Int)
    match fpart.2 with
    | [] => some (decCanon m (-(fpart.1.length : Int)))
    | e :: t =>
      if e = 'e' ∨ e = 'E' then
        let es : Int × Chars :=
          match t with
          | '+' :: u => (1, u)
          | '-' :: u => (-1, u)
          | u => (1, u)
        let ed := es.2.takeWhile Char.isDigit
        if ed = [] ∨ es.2.dropWhile Char.isDigit ≠ [] then none
        else some (decCanon m (es.1 * (digitsVal ed : Int) - (fpart.1.length : Int)))
      else none

/-- Model of `re.split` with the source pattern `RE_ARROW`, compiled from `<?->`:
scan left to right; at each position the pattern matches `<->`
(greedy optional `<`) or `->`; a bare `<-` never matches because the
`->` part is mandatory.  `acc` is the current piece, reversed. -/
def arrowSplitAux : Chars → Chars → List Chars
  | [], acc => [acc.reverse]
  | '<' :: '-' :: '>' :: rest, acc => acc.reverse :: arrowSplitAux rest []
  | '-' :: '>' :: rest, acc => acc.reverse :: arrowSplitAux rest []
  | c :: rest, acc => arrowSplitAux rest (c :: acc)

/-- Model of `RE_ARROW.split(target)`. -/
def arrowSplit (l : Chars) : List Chars := arrowSplitAux l []

/-- Truthiness of `RE_SEP.match(l)` with `RE_SEP = re.compile("-----+")`:
`re.match` anchors only at the start, so this holds exactly when `l`
begins with at least five dashes (anything may follow). -/
def RE_SEP_match (l : Chars) : Bool := List.isPrefixOf (cs "-----") l

/-- The separator test applied to a raw line: `RE_SEP.match(line.strip())`. -/
def isSepLine (line : Chars) : Bool := RE_SEP_match (pyStrip line)

-- sanity anchors for the tokenizers
example : pyStrip (cs "  a b \n") = cs "a b" := by decide
example : pySplitWs (cs " 1.0  2.0 ") = [cs "1.0", cs "2.0"] := by decide
example : pyFloat (cs "0.02") = some ⟨2, -2⟩ := by decide
example : pyFloat (cs "1.0e2") = some ⟨1, 2⟩ := by decide
example : pyFloat (cs "0.0") = some ⟨0, 0⟩ := by decide
example : pyFloat (cs "-3.5") = some ⟨-35, -1⟩ := by decide
example : pyFloat (cs "abc") = none := by decide
example : arrowSplit (cs "A -> B") = [cs "A ", cs " B"] := by decide
example : arrowSplit (cs "A <-> B") = [cs "A ", cs " B"] := by decide
example : arrowSplit (cs "A <- B") = [cs "A <- B"] := by decide
example : arrowSplit (cs "<-->") = [cs "<-", []] := by decide
example : isSepLine (cs " ----- ") = true := by decide
example : isSepLine (cs "----") = false := by decide
example : isSepLine (cs "-----abc") = true := by decide

/-! ## `np.loadtxt` -/

/-- The result shape of `np.loadtxt(...).tolist()`.  With the default
`ndmin=0`, numpy squeezes every mono-dimensional axis of the parsed
table, so a single row (or a single column) yields a flat list and a
single cell yields a bare float; `tolist` then mirrors that shape. -/
inductive NpData where
  | scalar (x : Dec)
  | vec (xs : List Dec)
  | mat (rows : List (List Dec))
deriving DecidableEq

/-- Model of how `loadtxt` discards everything from the comment character `#` on. -/
def stripHashComment (l : Chars) : Chars := l.takeWhile (fun c => c ≠ '#')

/-- The token rows `loadtxt` actually parses: comment-stripped,
whitespace-split, with blank lines discarded. -/
def loadtxtRows (lines : List Chars) : List (List Chars) :=
  (lines.map (fun l => pySplitWs (stripHashComment l))).filter (fun r => r ≠ [])

/-- All rows have the same width (numpy errors otherwise). -/
def sameLen : List (List Dec) → Bool
  | [] => true
  | r :: rs => rs.all (fun x => x.length = r.length)

/-- The numpy default squeeze of mono-dimensional axes (plus the empty
table, which gives an empty one-dimensional array). -/
def npSqueeze : List (List Dec) → NpData
  | [] => .vec []
  | [[x]] => .scalar x
  | [r] => .vec r
  | rs => if rs.all (fun r => r.length = 1) then .vec (rs.filterMap List.head?) else .mat rs

/-- Model of `np.loadtxt(lines).tolist()`: `none` models the `ValueError` raised
on a non-numeric token or on rows of inconsistent width. -/
def loadtxt (lines : List Chars) : Option NpData :=
  match (loadtxtRows lines).mapM (fun r => r.mapM pyFloat) with
  | none => none
  | some rows => if sameLen rows then some (npSqueeze rows) else none

example : loadtxt [cs "1.0 2.0", cs "2.0 3.0"] =
    some (.mat [[⟨1, 0⟩, ⟨2, 0⟩], [⟨2, 0⟩, ⟨3, 0⟩]]) := by decide
example : loadtxt [cs "0.0 0.0"] = some (.vec [⟨0, 0⟩, ⟨0, 0⟩]) := by decide
example : loadtxt [cs "1.0 abc"] = none := by decide
example : loadtxt [cs "1.0 2.0 3.0"] = some (.vec [⟨1, 0⟩, ⟨2, 0⟩, ⟨3, 0⟩]) := by decide
example : loadtxt [] = some (.vec []) := by decide

/-! ## The cross-section parser -/

/-- The Python exceptions the parser and converter can raise.  The
names follow the failure taxonomy of the specification where one
exists; the comments give the concrete Python exception. -/
inductive PErr where
  /-- Python `StopIteration` from `fp.next()` on an exhausted stream
  (`UnexpectedEndOfInput` in the taxonomy of the specification). -/
  | endOfInput
  /-- Python `ValueError` from `np.loadtxt` (`MalformedNumericTable`). -/
  | malformedTable
  /-- Python `ValueError` from `float()` on a non-numeric token. -/
  | badFloat
  /-- Python `IndexError` from indexing past the end of a token list. -/
  | indexError
  /-- Python `ValueError` from destructuring a split that is not a pair. -/
  | badUnpack
  /-- Python `AttributeError` from calling a string method on `None`. -/
  | attributeError
  /-- Python `KeyError` from a missing dictionary key. -/
  | keyError
  /-- Python `TypeError` from iterating or indexing a float. -/
  | typeError
deriving DecidableEq

/-- A process dictionary as returned by the block readers and tagged by
`parse`.  Optional fields model keys that may be absent from the
Python dictionary.  The field names are the dictionary keys of the source. -/
structure ProcessRecord where
  kind : Chars := []
  target : Chars := []
  product : Option Chars := none
  mass_ratio : Option Dec := none
  threshold : Option Dec := none
  weight_ratio : Option Dec := none
  data : NpData := .vec []
deriving DecidableEq

/-- Projection helper for the `mass_ratio` key. -/
def mratioOf (d : ProcessRecord) : Option Dec := d.mass_ratio

/-- Projection helper for the `weight_ratio` key. -/
def wratioOf (d : ProcessRecord) : Option Dec := d.weight_ratio

/-- Model of `_read_until_sep(fp)`: strips and collects lines until a separator
line (which is consumed) or the end of the stream; returns the
collected lines and the remaining stream. -/
def readUntilSep : List Chars → List Chars × List Chars
  | [] => ([], [])
  | l :: rest =>
    if isSepLine l then ([], rest)
    else (pyStrip l :: (readUntilSep rest).1, (readUntilSep rest).2)

/-- The argument-line step of `_read_block`: `fp.next().strip()` when
`has_arg`, otherwise `None` without consuming a line. -/
def readArg (hasArg : Bool) (fp : List Chars) : Except PErr (Option Chars × List Chars) :=
  match hasArg, fp with
  | false, _ => .ok (none, fp)
  | true, [] => .error .endOfInput
  | true, a :: rest => .ok (some (pyStrip a), rest)

/-- Model of `_read_block(fp, has_arg)`: target line, optional argument line, a
comment segment read until a separator (joined and then discarded by
the source, so not returned here), and the numeric data segment read
until another separator and fed to `np.loadtxt`. -/
def readBlock (hasArg : Bool) (fp : List Chars) :
    Except PErr ((Chars × Option Chars × NpData) × List Chars) :=
  match fp with
  | [] => .error .endOfInput
  | tline :: rest =>
    match readArg hasArg rest with
    | .error e => .error e
    | .ok (arg, rest2) =>
      match loadtxt (readUntilSep (readUntilSep rest2).2).1 with
      | none => .error .malformedTable
      | some dat => .ok ((pyStrip tline, arg, dat), (readUntilSep (readUntilSep rest2).2).2)

/-- Model of `float(t)` as an exception-raising conversion. -/
def floatExcept (t : Chars) : Except PErr Dec :=
  match pyFloat t with
  | none => .error .badFloat
  | some q => .ok q

/-- Model of `float(arg.split()[i])`: the indexing raises `IndexError` first,
then `float` raises `ValueError`, matching the order in the source. -/
def tokFloat (toks : List Chars) (i : Nat) : Except PErr Dec :=
  match toks.get? i with
  | none => .error .indexError
  | some t => floatExcept t

/-- Model of `_read_momentum(fp)` (used for MOMENTUM, ELASTIC and EFFECTIVE). -/
def read_momentum (fp : List Chars) : Except PErr (ProcessRecord × List Chars) :=
  match readBlock true fp with
  | .error e => .error e
  | .ok ((target, arg, dat), rest) =>
    match arg with
    | none => .error .attributeError
    | some a =>
      match tokFloat (pySplitWs a) 0 with
      | .error e => .error e
      | .ok mr => .ok ({ target := target, mass_ratio := some mr, data := dat }, rest)

/-- Model of `_read_excitation(fp)` (used for EXCITATION and IONIZATION). -/
def read_excitation (fp : List Chars) : Except PErr (ProcessRecord × List Chars) :=
  match readBlock true fp with
  | .error e => .error e
  | .ok ((target, arg, dat), rest) =>
    match arg with
    | none => .error .attributeError
    | some a =>
      match (arrowSplit target).map pyStrip with
      | [lhs, rhs] =>
        if cs "<->" ∈ pySplitWs target then
          match tokFloat (pySplitWs a) 0 with
          | .error e => .error e
          | .ok th =>
            match tokFloat (pySplitWs a) 1 with
            | .error e => .error e
            | .ok w =>
              .ok ({ target := lhs, product := some rhs, threshold := some th,
                     weight_ratio := some w, data := dat }, rest)
        else
          match tokFloat (pySplitWs a) 0 with
          | .error e => .error e
          | .ok th =>
            .ok ({ target := lhs, product := some rhs, threshold := some th,
                   data := dat }, rest)
      | _ => .error .badUnpack

/-- Model of `_read_attachment(fp)`. -/
def read_attachment (fp : List Chars) : Except PErr (ProcessRecord × List Chars) :=
  match readBlock false fp with
  | .error e => .error e
  | .ok ((target, _, dat), rest) =>
    match (arrowSplit target).map pyStrip with
    | [lhs, rhs] =>
      .ok ({ target := lhs, product := some rhs, threshold := some ⟨0, 0⟩, data := dat }, rest)
    | _ => .ok ({ target := target, threshold := some ⟨0, 0⟩, data := dat }, rest)

/-- The three distinct block readers the `KEYWORDS` table maps to. -/
inductive RKind where
  | momentum
  | excitation
  | attachment
deriving DecidableEq

/-- The `KEYWORDS` dispatch table: an exact, case-sensitive lookup of
the stripped line. -/
def KEYWORDS (key : Chars) : Option RKind :=
  if key = cs "MOMENTUM" ∨ key = cs "ELASTIC" ∨ key = cs "EFFECTIVE" then some .momentum
  else if key = cs "EXCITATION" ∨ key = cs "IONIZATION" then some .excitation
  else if key = cs "ATTACHMENT" then some .attachment
  else none

/-- Run the reader a keyword dispatches to. -/
def runReader : RKind → List Chars → Except PErr (ProcessRecord × List Chars)
  | .momentum => read_momentum
  | .excitation => read_excitation
  | .attachment => read_attachment

/-- Whether the reader of a keyword consumes an argument line. -/
def hasArgOf : RKind → Bool
  | .attachment => false
  | _ => true

/-- The body of one dispatched iteration of the `parse` loop: on a
successful block read, tag the record with its keyword and cons it onto
the parse of the remaining stream; any exception propagates. -/
def parseCont (key : Chars) (res : Except PErr (ProcessRecord × List Chars))
    (recur : List Chars → Except PErr (List ProcessRecord)) :
    Except PErr (List ProcessRecord) :=
  match res with
  | .error e => .error e
  | .ok (d, rest2) =>
    match recur rest2 with
    | .error e => .error e
    | .ok ds => .ok ({ d with kind := key } :: ds)

/-- The scanning loop of `parse`, with fuel for termination; the fuel
is immaterial as long as it is at least the stream length (shown in
`parseAux_fuel` below), and `parse` supplies exactly that. -/
def parseAux : Nat → List Chars → Except PErr (List ProcessRecord)
  | _, [] => .ok []
  | 0, _ :: _ => .ok []
  | fuel + 1, line :: rest =>
    match KEYWORDS (pyStrip line) with
    | none => parseAux fuel rest
    | some r => parseCont (pyStrip line) (runReader r rest) (parseAux fuel)

/-- Model of `parse(fp)`: scan the stream; every line whose stripped text is a
keyword starts a block read by the dispatched reader; any exception
aborts the whole parse. -/
def parse (fp : List Chars) : Except PErr (List ProcessRecord) :=
  parseAux fp.length fp

deriving instance DecidableEq for Except

-- sanity anchor: the EXCITATION example given by the specification
example : parse [cs "EXCITATION", cs "N2 -> N2(rot)", cs "0.02", cs "-----",
      cs "0.0 1.0", cs "1.0 0.5", cs "-----"] =
    .ok [{ kind := cs "EXCITATION", target := cs "N2", product := some (cs "N2(rot)"),
           threshold := some ⟨2, -2⟩,
           data := .mat [[⟨0, 0⟩, ⟨1, 0⟩], [⟨1, 0⟩, ⟨5, -1⟩]] }] := by decide

/-! ## Stream-consumption lemmas -/

theorem readUntilSep_snd_length (fp : List Chars) :
    (readUntilSep fp).2.length ≤ fp.length := by
  induction fp with
  | nil => exact Nat.le_refl _
  | cons l rest ih =>
    by_cases h : isSepLine l
    · simp [readUntilSep, h]
    · simp only [readUntilSep, if_neg h]
      exact Nat.le_succ_of_le ih

theorem readArg_ok {b : Bool} {fp rest2 : List Chars} {arg : Option Chars}
    (h : readArg b fp = .ok (arg, rest2)) :
    rest2 = (if b then fp.tail else fp) ∧ rest2.length ≤ fp.length := by
  cases b with
  | false =>
    cases h
    simp
  | true =>
    cases fp with
    | nil => cases h
    | cons a r =>
      cases h
      simp

/-- The stream left over by a successful `_read_block`, as a pure
function of the input stream. -/
def blockRest (hasArg : Bool) : List Chars → List Chars
  | [] => []
  | _ :: rest =>
    (readUntilSep (readUntilSep (if hasArg then rest.tail else rest)).2).2

theorem blockRest_length (b : Bool) (fp : List Chars) :
    (blockRest b fp).length ≤ fp.length := by
  cases fp with
  | nil => exact Nat.le_refl _
  | cons l rest =>
    simp only [blockRest]
    have h1 : (if b then rest.tail else rest).length ≤ rest.length := by
      split <;> simp [List.length_tail]
    have h2 := readUntilSep_snd_length (if b then rest.tail else rest)
    have h3 := readUntilSep_snd_length (readUntilSep (if b then rest.tail else rest)).2
    simp only [List.length_cons]
    omega

theorem readBlock_ok {b : Bool} {fp rest : List Chars}
    {x : Chars × Option Chars × NpData}
    (h : readBlock b fp = .ok (x, rest)) :
    rest = blockRest b fp ∧ rest.length < fp.length := by
  cases fp with
  | nil => simp [readBlock] at h
  | cons tline r =>
    simp only [readBlock] at h
    split at h
    · cases h
    next arg rest2 harg =>
      split at h
      · cases h
      next dat hld =>
      cases h
      obtain ⟨he, hlen⟩ := readArg_ok harg
      subst he
      refine ⟨rfl, ?_⟩
      have := readUntilSep_snd_length (readUntilSep (if b then r.tail else r)).2
      have := readUntilSep_snd_length (if b then r.tail else r)
      simp only [List.length_cons]
      omega

theorem read_momentum_ok {fp rest : List Chars} {d : ProcessRecord}
    (h : read_momentum fp = .ok (d, rest)) :
    rest = blockRest true fp ∧ rest.length < fp.length := by
  simp only [read_momentum] at h
  split at h
  · cases h
  next x rest' hblk =>
    split at h
    · cases h
    next a =>
      split at h
      · cases h
      next mr htok =>
        cases h
        exact readBlock_ok hblk

theorem read_excitation_ok {fp rest : List Chars} {d : ProcessRecord}
    (h : read_excitation fp = .ok (d, rest)) :
    rest = blockRest true fp ∧ rest.length < fp.length := by
  simp only [read_excitation] at h
  split at h
  · cases h
  next x rest' hblk =>
    split at h
    · cases h
    next a =>
      split at h
      next lhs rhs hsplit =>
        split at h
        · split at h
          · cases h
          next th htok =>
            split at h
            · cases h
            next w htok2 =>
              cases h
              exact readBlock_ok hblk
        · split at h
          · cases h
          next th htok =>
            cases h
            exact readBlock_ok hblk
      next hne => cases h

theorem read_attachment_ok {fp rest : List Chars} {d : ProcessRecord}
    (h : read_attachment fp = .ok (d, rest)) :
    rest = blockRest false fp ∧ rest.length < fp.length := by
  simp only [read_attachment] at h
  split at h
  · cases h
  next x rest' hblk =>
    split at h
    next lhs rhs hsplit =>
      cases h
      exact readBlock_ok hblk
    next hne =>
      cases h
      exact readBlock_ok hblk

theorem runReader_ok {r : RKind} {fp rest : List Chars} {d : ProcessRecord}
    (h : runReader r fp = .ok (d, rest)) :
    rest = blockRest (hasArgOf r) fp ∧ rest.length < fp.length := by
  cases r with
  | momentum => exact read_momentum_ok h
  | excitation => exact read_excitation_ok h
  | attachment => exact read_attachment_ok h

/-! ## Fuel adequacy and unfolding equations for `parse` -/

theorem parseAux_nil (f : Nat) : parseAux f [] = .ok [] := by
  cases f <;> rfl

theorem parseCont_congr {key : Chars} {res : Except PErr (ProcessRecord × List Chars)}
    {f g : List Chars → Except PErr (List ProcessRecord)}
    (h : ∀ d rest2, res = .ok (d, rest2) → f rest2 = g rest2) :
    parseCont key res f = parseCont key res g := by
  cases res with
  | error e => rfl
  | ok p =>
    obtain ⟨d, rest2⟩ := p
    simp only [parseCont]
    rw [h d rest2 rfl]

theorem parseAux_fuel : ∀ f1 f2 : Nat, ∀ fp : List Chars,
    fp.length ≤ f1 → fp.length ≤ f2 → parseAux f1 fp = parseAux f2 fp := by
  intro f1
  induction f1 with
  | zero =>
    intro f2 fp h1 _
    have : fp = [] := List.length_eq_zero.mp (Nat.le_zero.mp h1)
    subst this
    rw [parseAux_nil, parseAux_nil]
  | succ n ih =>
    intro f2 fp h1 h2
    cases fp with
    | nil => rw [parseAux_nil, parseAux_nil]
    | cons line rest =>
      cases f2 with
      | zero => simp at h2
      | succ m =>
        have hr1 : rest.length ≤ n := by simpa using h1
        have hr2 : rest.length ≤ m := by simpa using h2
        simp only [parseAux]
        cases hk : KEYWORDS (pyStrip line) with
        | none => exact ih m rest hr1 hr2
        | some r =>
          refine parseCont_congr ?_
          intro d rest2 hres
          have hlt := (runReader_ok hres).2
          exact ih m rest2 (by omega) (by omega)

theorem parse_nil : parse [] = .ok [] := rfl

theorem parse_cons_none {line : Chars} {rest : List Chars}
    (h : KEYWORDS (pyStrip line) = none) :
    parse (line :: rest) = parse rest := by
  simp only [parse, List.length_cons, parseAux, h]

theorem parse_cons_some {line : Chars} {rest : List Chars} {r : RKind}
    (h : KEYWORDS (pyStrip line) = some r) :
    parse (line :: rest) =
      parseCont (pyStrip line) (runReader r rest) (parseAux rest.length) := by
  simp only [parse, List.length_cons, parseAux, h]

theorem parse_cons_err {line : Chars} {rest : List Chars} {r : RKind} {e : PErr}
    (h : KEYWORDS (pyStrip line) = some r) (h2 : runReader r rest = .error e) :
    parse (line :: rest) = .error e := by
  rw [parse_cons_some h, h2]
  rfl

theorem parse_cons_ok {line : Chars} {rest rest2 : List Chars} {r : RKind}
    {d : ProcessRecord}
    (h : KEYWORDS (pyStrip line) = some r) (h2 : runReader r rest = .ok (d, rest2)) :
    parse (line :: rest) =
      match parse rest2 with
      | .error e => .error e
      | .ok ds => .ok ({ d with kind := pyStrip line } :: ds) := by
  rw [parse_cons_some h, h2]
  simp only [parseCont]
  rw [parseAux_fuel rest.length rest2.length rest2
    (le_of_lt (runReader_ok h2).2) (le_refl _)]
  rfl

/-! ## The sequence of recognized keyword headers -/

/-- The keyword headers encountered by the scanning loop, in stream
order (each recognized header hands the following lines to its block
reader, so lines consumed by a block are not scanned). -/
def scanKeysAux : Nat → List Chars → List Chars
  | _, [] => []
  | 0, _ :: _ => []
  | fuel + 1, line :: rest =>
    match KEYWORDS (pyStrip line) with
    | none => scanKeysAux fuel rest
    | some r => pyStrip line :: scanKeysAux fuel (blockRest (hasArgOf r) rest)

/-- The headers `parse` recognizes, in stream order. -/
def scanKeys (fp : List Chars) : List Chars := scanKeysAux fp.length fp

theorem scanKeysAux_nil (f : Nat) : scanKeysAux f [] = [] := by
  cases f <;> rfl

theorem scanKeysAux_fuel : ∀ f1 f2 : Nat, ∀ fp : List Chars,
    fp.length ≤ f1 → fp.length ≤ f2 → scanKeysAux f1 fp = scanKeysAux f2 fp := by
  intro f1
  induction f1 with
  | zero =>
    intro f2 fp h1 _
    have : fp = [] := List.length_eq_zero.mp (Nat.le_zero.mp h1)
    subst this
    rw [scanKeysAux_nil, scanKeysAux_nil]
  | succ n ih =>
    intro f2 fp h1 h2
    cases fp with
    | nil => rw [scanKeysAux_nil, scanKeysAux_nil]
    | cons line rest =>
      cases f2 with
      | zero => simp at h2
      | succ m =>
        have hr1 : rest.length ≤ n := by simpa using h1
        have hr2 : rest.length ≤ m := by simpa using h2
        simp only [scanKeysAux]
        cases hk : KEYWORDS (pyStrip line) with
        | none => exact ih m rest hr1 hr2
        | some r =>
          have hb := blockRest_length (hasArgOf r) rest
          show pyStrip line :: scanKeysAux n (blockRest (hasArgOf r) rest) =
            pyStrip line :: scanKeysAux m (blockRest (hasArgOf r) rest)
          exact congrArg _ (ih m _ (by omega) (by omega))

theorem scanKeys_cons_none {line : Chars} {rest : List Chars}
    (h : KEYWORDS (pyStrip line) = none) :
    scanKeys (line :: rest) = scanKeys rest := by
  simp only [scanKeys, List.length_cons, scanKeysAux, h]

theorem scanKeys_cons_some {line : Chars} {rest : List Chars} {r : RKind}
    (h : KEYWORDS (pyStrip line) = some r) :
    scanKeys (line :: rest) = pyStrip line :: scanKeys (blockRest (hasArgOf r) rest) := by
  simp only [scanKeys, List.length_cons, scanKeysAux, h]
  rw [scanKeysAux_fuel rest.length (blockRest (hasArgOf r) rest).length
    (blockRest (hasArgOf r) rest) (blockRest_length (hasArgOf r) rest) (le_refl _)]

/-- The order/tagging half of claim C1, as a helper usable at any
stream length: a successful parse returns one record per recognized
header, in stream order, each tagged with its keyword. -/
theorem parse_kinds : ∀ fp : List Chars, ∀ recs : List ProcessRecord,
    parse fp = .ok recs → recs.map ProcessRecord.kind = scanKeys fp := by
  have main : ∀ n : Nat, ∀ fp : List Chars, ∀ recs : List ProcessRecord,
      fp.length ≤ n → parse fp = .ok recs →
      recs.map ProcessRecord.kind = scanKeys fp := by
    intro n
    induction n with
    | zero =>
      intro fp recs h1 hp
      have : fp = [] := List.length_eq_zero.mp (Nat.le_zero.mp h1)
      subst this
      rw [parse_nil] at hp
      cases hp
      rfl
    | succ n ih =>
      intro fp recs h1 hp
      cases fp with
      | nil =>
        rw [parse_nil] at hp
        cases hp
        rfl
      | cons line rest =>
        have hr1 : rest.length ≤ n := by simpa using h1
        cases hk : KEYWORDS (pyStrip line) with
        | none =>
          rw [parse_cons_none hk] at hp
          rw [scanKeys_cons_none hk]
          exact ih rest recs hr1 hp
        | some r =>
          cases hrr : runReader r rest with
          | error e => rw [parse_cons_err hk hrr] at hp; cases hp
          | ok p =>
            obtain ⟨d, rest2⟩ := p
            rw [parse_cons_ok hk hrr] at hp
            cases hp2 : parse rest2 with
            | error e => rw [hp2] at hp; cases hp
            | ok ds =>
              rw [hp2] at hp
              cases hp
              obtain ⟨heq, hlt⟩ := runReader_ok hrr
              rw [scanKeys_cons_some hk, ← heq]
              have := ih rest2 ds (by omega) hp2
              simp [this]
  intro fp recs hp
  exact main fp.length fp recs (le_refl _) hp

/-! ## Error propagation -/

theorem runReader_err {r : RKind} {fp : List Chars} {e : PErr}
    (h : readBlock (hasArgOf r) fp = .error e) : runReader r fp = .error e := by
  cases r with
  | momentum => simp only [runReader, read_momentum, hasArgOf] at h ⊢; rw [h]
  | excitation => simp only [runReader, read_excitation, hasArgOf] at h ⊢; rw [h]
  | attachment => simp only [runReader, read_attachment, hasArgOf] at h ⊢; rw [h]

theorem mapM_none {α β : Type _} {f : α → Option β} {l : List α} {a : α}
    (ha : a ∈ l) (hf : f a = none) : l.mapM f = none := by
  induction l with
  | nil => cases ha
  | cons x xs ih =>
    rw [List.mapM_cons]
    rcases List.mem_cons.mp ha with h | h
    · subst h
      rw [hf]
      rfl
    · cases hx : f x with
      | none => rfl
      | some b =>
        rw [ih h]
        rfl

/-- A single non-numeric token among the rows `loadtxt` keeps makes the
whole load fail (numpy raises `ValueError`). -/
theorem loadtxt_bad {lines : List Chars} {toks : List Chars} {tk : Chars}
    (hmem : toks ∈ loadtxtRows lines) (htk : tk ∈ toks) (hbad : pyFloat tk = none) :
    loadtxt lines = none := by
  have h2 : (loadtxtRows lines).mapM (fun r => r.mapM pyFloat) = none :=
    mapM_none hmem (mapM_none htk hbad)
  simp only [loadtxt]
  rw [h2]

/-- Lemma that `_read_block` fails with the `MalformedNumericTable` error as soon
as `loadtxt` fails on the collected data segment. -/
theorem readBlock_malformed {b : Bool} {tline : Chars} {rest rest2 : List Chars}
    {arg : Option Chars}
    (harg : readArg b rest = .ok (arg, rest2))
    (hld : loadtxt (readUntilSep (readUntilSep rest2).2).1 = none) :
    readBlock b (tline :: rest) = .error .malformedTable := by
  simp only [readBlock, harg, hld]

/-! ## `RE_ARROW.split` characterization -/

theorem arrowSplitAux_cons_ne {c : Char} {rest acc : Chars}
    (h1 : c ≠ '<') (h2 : c ≠ '-') :
    arrowSplitAux (c :: rest) acc = arrowSplitAux rest (c :: acc) := by
  rcases rest with _ | ⟨c2, rest2⟩
  · simp [arrowSplitAux, h1, h2]
  · rcases rest2 with _ | ⟨c3, rest3⟩
    · simp [arrowSplitAux, h1, h2]
    · simp [arrowSplitAux, h1, h2]

theorem arrowSplitAux_no : ∀ {l : Chars} (acc : Chars), '-' ∉ l → '<' ∉ l →
    arrowSplitAux l acc = [acc.reverse ++ l] := by
  intro l
  induction l with
  | nil =>
    intro acc _ _
    simp [arrowSplitAux]
  | cons c rest ih =>
    intro acc h1 h2
    have hc1 : c ≠ '<' := fun h => h2 (h ▸ List.mem_cons_self c rest)
    have hc2 : c ≠ '-' := fun h => h1 (h ▸ List.mem_cons_self c rest)
    rw [arrowSplitAux_cons_ne hc1 hc2,
      ih (c :: acc) (fun h => h1 (List.mem_cons_of_mem c h))
        (fun h => h2 (List.mem_cons_of_mem c h))]
    simp

theorem arrowSplitAux_arrow : ∀ {l : Chars} (acc : Chars) {r : Chars},
    '-' ∉ l → '<' ∉ l → '-' ∉ r → '<' ∉ r →
    arrowSplitAux (l ++ '-' :: '>' :: r) acc = [acc.reverse ++ l, r] := by
  intro l
  induction l with
  | nil =>
    intro acc r _ _ h3 h4
    show acc.reverse :: arrowSplitAux r [] = _
    rw [arrowSplitAux_no [] h3 h4]
    simp
  | cons c rest ih =>
    intro acc r h1 h2 h3 h4
    have hc1 : c ≠ '<' := fun h => h2 (h ▸ List.mem_cons_self c rest)
    have hc2 : c ≠ '-' := fun h => h1 (h ▸ List.mem_cons_self c rest)
    rw [List.cons_append, arrowSplitAux_cons_ne hc1 hc2,
      ih (c :: acc) (fun h => h1 (List.mem_cons_of_mem c h))
        (fun h => h2 (List.mem_cons_of_mem c h)) h3 h4]
    simp

theorem arrowSplitAux_arrow2 : ∀ {l : Chars} (acc : Chars) {r : Chars},
    '-' ∉ l → '<' ∉ l → '-' ∉ r → '<' ∉ r →
    arrowSplitAux (l ++ '<' :: '-' :: '>' :: r) acc = [acc.reverse ++ l, r] := by
  intro l
  induction l with
  | nil =>
    intro acc r _ _ h3 h4
    show acc.reverse :: arrowSplitAux r [] = _
    rw [arrowSplitAux_no [] h3 h4]
    simp
  | cons c rest ih =>
    intro acc r h1 h2 h3 h4
    have hc1 : c ≠ '<' := fun h => h2 (h ▸ List.mem_cons_self c rest)
    have hc2 : c ≠ '-' := fun h => h1 (h ▸ List.mem_cons_self c rest)
    rw [List.cons_append, arrowSplitAux_cons_ne hc1 hc2,
      ih (c :: acc) (fun h => h1 (List.mem_cons_of_mem c h))
        (fun h => h2 (List.mem_cons_of_mem c h)) h3 h4]
    simp

theorem arrowSplitAux_larrow : ∀ {l : Chars} (acc : Chars) {r : Chars},
    '-' ∉ l → '<' ∉ l → '-' ∉ r → '<' ∉ r → '>' ∉ r →
    arrowSplitAux (l ++ '<' :: '-' :: r) acc = [acc.reverse ++ (l ++ '<' :: '-' :: r)] := by
  intro l
  induction l with
  | nil =>
    intro acc r _ _ h3 h4 h5
    cases r with
    | nil => simp [arrowSplitAux]
    | cons c3 r3 =>
      have hc3 : c3 ≠ '>' := fun h => h5 (h ▸ List.mem_cons_self c3 r3)
      have hstep : arrowSplitAux ([] ++ '<' :: '-' :: c3 :: r3) acc =
          arrowSplitAux (c3 :: r3) ('-' :: '<' :: acc) := by
        simp [arrowSplitAux, hc3]
      rw [hstep, arrowSplitAux_no ('-' :: '<' :: acc)
        (fun h => h3 (by exact h)) (fun h => h4 (by exact h))]
      simp
  | cons c rest ih =>
    intro acc r h1 h2 h3 h4 h5
    have hc1 : c ≠ '<' := fun h => h2 (h ▸ List.mem_cons_self c rest)
    have hc2 : c ≠ '-' := fun h => h1 (h ▸ List.mem_cons_self c rest)
    rw [List.cons_append, arrowSplitAux_cons_ne hc1 hc2,
      ih (c :: acc) (fun h => h1 (List.mem_cons_of_mem c h))
        (fun h => h2 (List.mem_cons_of_mem c h)) h3 h4 h5]
    simp

/-! ## Additional helpers for the claim theorems -/

theorem tokFloat_ok {toks : List Chars} {i : Nat} {v : Dec}
    (h : tokFloat toks i = .ok v) : (toks.get? i).bind pyFloat = some v := by
  cases hg : toks.get? i with
  | none =>
    simp only [tokFloat, hg] at h
    cases h
  | some t =>
    simp only [tokFloat, hg] at h
    cases hf : pyFloat t with
    | none =>
      simp only [floatExcept, hf] at h
      cases h
    | some q =>
      simp only [floatExcept, hf] at h
      cases h
      simp [hf]

theorem dash_prefix_iff : ∀ n : Nat, ∀ l : Chars,
    (List.replicate n '-').isPrefixOf l = true ↔
      n ≤ (l.takeWhile (fun c => c == '-')).length := by
  intro n
  induction n with
  | zero =>
    intro l
    simp [List.isPrefixOf]
  | succ n ih =>
    intro l
    cases l with
    | nil => simp [List.isPrefixOf, List.replicate]
    | cons c t =>
      by_cases hc : c = '-'
      · subst hc
        simp [List.isPrefixOf, List.replicate, List.takeWhile, ih t, Nat.succ_le_succ_iff]
      · have hb : (c == '-') = false := beq_eq_false_iff_ne.mpr hc
        simp [List.isPrefixOf, List.replicate, List.takeWhile, hb]
        intro h
        exact absurd h.symm hc

/-! ## Claim C1 -/

/-- C1: for every input stream, `parse` returns the process records in
the same order as their keyword header lines appear in the stream, one
record per recognized header (exact, case-sensitive match of the
stripped line against the six keywords), each record tagged with its
kind; every scanned line that matches no keyword is skipped silently
and causes no error. -/
theorem C1_parse_order :
    (∀ fp : List Chars, ∀ recs : List ProcessRecord,
      parse fp = .ok recs → recs.map ProcessRecord.kind = scanKeys fp) ∧
    (∀ line : Chars, ∀ rest : List Chars,
      KEYWORDS (pyStrip line) = none → parse (line :: rest) = parse rest) :=
  ⟨parse_kinds, fun _ _ h => parse_cons_none h⟩

theorem C1_parse_order_witness :
    ([{ kind := cs "MOMENTUM", target := cs "Ar", mass_ratio := some ⟨1, -1⟩,
        data := .mat [[⟨1, 0⟩, ⟨2, 0⟩], [⟨2, 0⟩, ⟨3, 0⟩]] }] : List ProcessRecord).map
        ProcessRecord.kind =
      scanKeys [cs "some preamble", cs "MOMENTUM", cs "Ar", cs "0.1", cs "-----",
        cs "1.0 2.0", cs "2.0 3.0", cs "-----"] ∧
    parse (cs "some preamble" :: [cs "MOMENTUM", cs "Ar", cs "0.1", cs "-----",
        cs "1.0 2.0", cs "2.0 3.0", cs "-----"]) =
      parse [cs "MOMENTUM", cs "Ar", cs "0.1", cs "-----",
        cs "1.0 2.0", cs "2.0 3.0", cs "-----"] := by
  constructor
  · exact C1_parse_order.1 _ _ (by decide)
  · exact C1_parse_order.2 _ _ (by decide)

/-! ## Claim C2 -/

/-- C2: for every EXCITATION or IONIZATION block, the returned record
contains a `weight_ratio` key if and only if the literal token `<->`
occurs among the whitespace-separated tokens of the target line; in
that case `threshold` is the first float and `weight_ratio` the second
float of the argument line, and otherwise `threshold` is the first
float of the argument line and no `weight_ratio` key is set. -/
theorem C2_weight_ratio_iff :
    ∀ fp rest rest2 : List Chars, ∀ target a : Chars, ∀ dat : NpData,
      ∀ d : ProcessRecord,
      readBlock true fp = .ok ((target, some a, dat), rest) →
      read_excitation fp = .ok (d, rest2) →
      ((wratioOf d).isSome ↔ cs "<->" ∈ pySplitWs target) ∧
      (cs "<->" ∈ pySplitWs target →
        d.threshold = ((pySplitWs a).get? 0).bind pyFloat ∧
        wratioOf d = ((pySplitWs a).get? 1).bind pyFloat) ∧
      (cs "<->" ∉ pySplitWs target →
        d.threshold = ((pySplitWs a).get? 0).bind pyFloat ∧
        wratioOf d = none) := by
  intro fp rest rest2 target a dat d hblk hexc
  simp only [read_excitation, hblk] at hexc
  rcases hsp : (arrowSplit target).map pyStrip with _ | ⟨lhs, _ | ⟨rhs, _ | ⟨x, tl⟩⟩⟩
  · simp only [hsp] at hexc
    cases hexc
  · simp only [hsp] at hexc
    cases hexc
  · simp only [hsp] at hexc
    by_cases hrev : cs "<->" ∈ pySplitWs target
    · rw [if_pos hrev] at hexc
      cases htok0 : tokFloat (pySplitWs a) 0 with
      | error e => rw [htok0] at hexc; cases hexc
      | ok th =>
        rw [htok0] at hexc
        cases htok1 : tokFloat (pySplitWs a) 1 with
        | error e => rw [htok1] at hexc; cases hexc
        | ok w =>
          rw [htok1] at hexc
          cases hexc
          refine ⟨by simp [wratioOf, hrev], fun _ => ?_, fun hn => absurd hrev hn⟩
          exact ⟨(tokFloat_ok htok0).symm, by simp [wratioOf, (tokFloat_ok htok1).symm]⟩
    · rw [if_neg hrev] at hexc
      cases htok0 : tokFloat (pySplitWs a) 0 with
      | error e => rw [htok0] at hexc; cases hexc
      | ok th =>
        rw [htok0] at hexc
        cases hexc
        refine ⟨by simp [wratioOf, hrev], fun hy => absurd hy hrev, fun _ => ?_⟩
        exact ⟨(tokFloat_ok htok0).symm, by simp [wratioOf]⟩
  · simp only [hsp] at hexc
    cases hexc

/-- Concrete reversible-EXCITATION record used by the C2 witness. -/
def recC2 : ProcessRecord :=
  { target := cs "Ar", product := some (cs "Ar*"), threshold := some ⟨1, 0⟩,
    weight_ratio := some ⟨5, -1⟩, data := .vec [⟨1, 0⟩, ⟨2, 0⟩] }

theorem C2_weight_ratio_iff_witness :
    ((wratioOf recC2).isSome ↔ cs "<->" ∈ pySplitWs (cs "Ar <-> Ar*")) ∧
    (cs "<->" ∈ pySplitWs (cs "Ar <-> Ar*") →
      recC2.threshold = ((pySplitWs (cs "1.0 0.5")).get? 0).bind pyFloat ∧
      wratioOf recC2 = ((pySplitWs (cs "1.0 0.5")).get? 1).bind pyFloat) ∧
    (cs "<->" ∉ pySplitWs (cs "Ar <-> Ar*") →
      recC2.threshold = ((pySplitWs (cs "1.0 0.5")).get? 0).bind pyFloat ∧
      wratioOf recC2 = none) :=
  C2_weight_ratio_iff
    [cs "Ar <-> Ar*", cs "1.0 0.5", cs "-----", cs "1.0 2.0", cs "-----"]
    [] [] (cs "Ar <-> Ar*") (cs "1.0 0.5") (.vec [⟨1, 0⟩, ⟨2, 0⟩]) recC2
    (by decide) (by decide)

/-! ## Claim C3 -/

/-- C3 counterexample: the arrow pattern of `RE_ARROW` is `<?->`, which
never matches the bare token `<-`: the target line `A <- B` is returned
unsplit (one piece, not two), and an EXCITATION block with that target
line aborts the parse with an unpacking error instead of yielding
target `A` and product `B`. -/
theorem C3_counterexample :
    arrowSplit (cs "A <- B") = [cs "A <- B"] ∧
    parse [cs "EXCITATION", cs "A <- B", cs "1.0", cs "-----",
        cs "1.0 2.0", cs "-----"] = .error .badUnpack := by
  constructor <;> decide

/-- C3 amended: the EXCITATION/IONIZATION target line is split on the
regex `<?->`, i.e. on the arrow tokens `->` or `<->` only; a bare `<-`
is not matched, so a target line whose only arrow-like token is `<-` is
returned whole (and the excitation reader then fails, see C10). -/
theorem C3_arrow_split :
    ∀ l r : Chars, '-' ∉ l → '<' ∉ l → '-' ∉ r → '<' ∉ r →
      arrowSplit (l ++ '-' :: '>' :: r) = [l, r] ∧
      arrowSplit (l ++ '<' :: '-' :: '>' :: r) = [l, r] ∧
      ('>' ∉ r → arrowSplit (l ++ '<' :: '-' :: r) = [l ++ '<' :: '-' :: r]) := by
  intro l r h1 h2 h3 h4
  refine ⟨?_, ?_, fun h5 => ?_⟩
  · have h := arrowSplitAux_arrow (l := l) [] (r := r) h1 h2 h3 h4
    simpa [arrowSplit] using h
  · have h := arrowSplitAux_arrow2 (l := l) [] (r := r) h1 h2 h3 h4
    simpa [arrowSplit] using h
  · have h := arrowSplitAux_larrow (l := l) [] (r := r) h1 h2 h3 h4 h5
    simpa [arrowSplit] using h

theorem C3_arrow_split_witness :
    arrowSplit (cs "N2 " ++ '-' :: '>' :: cs " N2(rot)") = [cs "N2 ", cs " N2(rot)"] ∧
    arrowSplit (cs "N2 " ++ '<' :: '-' :: '>' :: cs " N2(rot)") =
      [cs "N2 ", cs " N2(rot)"] ∧
    arrowSplit (cs "N2 " ++ '<' :: '-' :: cs " N2(rot)") =
      [cs "N2 " ++ '<' :: '-' :: cs " N2(rot)"] := by
  have h := C3_arrow_split (cs "N2 ") (cs " N2(rot)")
    (by decide) (by decide) (by decide) (by decide)
  exact ⟨h.1, h.2.1, h.2.2 (by decide)⟩

/-! ## Claim C10 -/

/-- C10: for every EXCITATION or IONIZATION block, parsing succeeds
only when the target line contains exactly one occurrence of the arrow
pattern (`<?->`), i.e. when the regex split yields exactly two pieces;
a target line with no arrow, or with two or more arrows, makes the
two-element destructuring fail and aborts the whole parse with an
error. -/
theorem C10_arrow_unpack :
    ∀ fp rest : List Chars, ∀ target a : Chars, ∀ dat : NpData,
      readBlock true fp = .ok ((target, some a, dat), rest) →
      (∀ d : ProcessRecord, ∀ rest2 : List Chars,
          read_excitation fp = .ok (d, rest2) → (arrowSplit target).length = 2) ∧
      ((arrowSplit target).length ≠ 2 →
          read_excitation fp = .error .badUnpack ∧
          ∀ hdr : Chars, KEYWORDS (pyStrip hdr) = some RKind.excitation →
            parse (hdr :: fp) = .error .badUnpack) := by
  intro fp rest target a dat hblk
  constructor
  · intro d rest2 hexc
    simp only [read_excitation, hblk] at hexc
    rcases hsp : (arrowSplit target).map pyStrip with _ | ⟨lhs, _ | ⟨rhs, _ | ⟨x, tl⟩⟩⟩
    · simp only [hsp] at hexc
      cases hexc
    · simp only [hsp] at hexc
      cases hexc
    · have := congrArg List.length hsp
      simpa using this
    · simp only [hsp] at hexc
      cases hexc
  · intro hlen
    have herr : read_excitation fp = .error .badUnpack := by
      simp only [read_excitation, hblk]
      rcases hsp : (arrowSplit target).map pyStrip with _ | ⟨lhs, _ | ⟨rhs, _ | ⟨x, tl⟩⟩⟩
      · simp only [hsp]
      · simp only [hsp]
      · exact absurd (by simpa using congrArg List.length hsp) hlen
      · simp only [hsp]
    refine ⟨herr, fun hdr hk => ?_⟩
    exact parse_cons_err hk herr

theorem C10_arrow_unpack_witness :
    read_excitation [cs "N2", cs "1.0", cs "-----", cs "1.0 2.0", cs "-----"] =
      .error .badUnpack ∧
    parse [cs "EXCITATION", cs "N2", cs "1.0", cs "-----", cs "1.0 2.0", cs "-----"] =
      .error .badUnpack := by
  have h := (C10_arrow_unpack [cs "N2", cs "1.0", cs "-----", cs "1.0 2.0", cs "-----"]
    [] (cs "N2") (cs "1.0") (.vec [⟨1, 0⟩, ⟨2, 0⟩]) (by decide)).2 (by decide)
  exact ⟨h.1, h.2 (cs "EXCITATION") (by decide)⟩

/-! ## Claim C4 -/

/-- C4 counterexample: on the example given by the claim — an ATTACHMENT block
with target line `O2` (no arrow) and the single data row `0.0 0.0` —
the `data` of the record is the flat list `[0.0, 0.0]` (numpy squeezes the
single-row table to one dimension before `tolist`), not the
two-dimensional `[[0.0, 0.0]]` stated in the claim. -/
theorem C4_counterexample :
    parse [cs "ATTACHMENT", cs "O2", cs "-----", cs "0.0 0.0", cs "-----"] =
      .ok [{ kind := cs "ATTACHMENT", target := cs "O2", threshold := some ⟨0, 0⟩,
             data := .vec [⟨0, 0⟩, ⟨0, 0⟩] }] ∧
    NpData.vec [⟨0, 0⟩, ⟨0, 0⟩] ≠ NpData.mat [[⟨0, 0⟩, ⟨0, 0⟩]] := by
  constructor <;> decide

/-- C4 amended: for every ATTACHMENT block no argument line is consumed
(`_read_block` is called with `has_arg=False`), the record field
`threshold` is fixed at `0.0`, and the target line is split on the
arrow pattern: exactly two pieces become `target`/`product`, otherwise
the whole target line becomes `target` and no `product` key is set.
(On the example of the claim the record is as claimed except that the single
data row is squeezed by numpy to the flat `[0.0, 0.0]`; see the
counterexample.) -/
theorem C4_attachment :
    ∀ fp rest : List Chars, ∀ target : Chars, ∀ dat : NpData,
      readBlock false fp = .ok ((target, none, dat), rest) →
      ∃ d : ProcessRecord, read_attachment fp = .ok (d, rest) ∧
        d.threshold = some ⟨0, 0⟩ ∧ d.data = dat ∧
        ((∃ lhs rhs : Chars, (arrowSplit target).map pyStrip = [lhs, rhs] ∧
            d.target = lhs ∧ d.product = some rhs) ∨
         (((arrowSplit target).map pyStrip).length ≠ 2 ∧
            d.target = target ∧ d.product = none)) := by
  intro fp rest target dat hblk
  rcases hsp : (arrowSplit target).map pyStrip with _ | ⟨lhs, _ | ⟨rhs, _ | ⟨x, tl⟩⟩⟩
  · exact ⟨{ target := target, threshold := some ⟨0, 0⟩, data := dat },
      by simp only [read_attachment, hblk, hsp], rfl, rfl,
      Or.inr ⟨by simp [hsp], rfl, rfl⟩⟩
  · exact ⟨{ target := target, threshold := some ⟨0, 0⟩, data := dat },
      by simp only [read_attachment, hblk, hsp], rfl, rfl,
      Or.inr ⟨by simp [hsp], rfl, rfl⟩⟩
  · exact ⟨{ target := lhs, product := some rhs, threshold := some ⟨0, 0⟩, data := dat },
      by simp only [read_attachment, hblk, hsp], rfl, rfl,
      Or.inl ⟨lhs, rhs, rfl, rfl, rfl⟩⟩
  · exact ⟨{ target := target, threshold := some ⟨0, 0⟩, data := dat },
      by simp only [read_attachment, hblk, hsp], rfl, rfl,
      Or.inr ⟨by simp [hsp], rfl, rfl⟩⟩

theorem C4_attachment_witness :
    ∃ d : ProcessRecord,
      read_attachment [cs "O2", cs "-----", cs "0.0 0.0", cs "-----"] = .ok (d, []) ∧
      d.threshold = some ⟨0, 0⟩ ∧ d.data = .vec [⟨0, 0⟩, ⟨0, 0⟩] ∧
      ((∃ lhs rhs : Chars, (arrowSplit (cs "O2")).map pyStrip = [lhs, rhs] ∧
          d.target = lhs ∧ d.product = some rhs) ∨
       (((arrowSplit (cs "O2")).map pyStrip).length ≠ 2 ∧
          d.target = cs "O2" ∧ d.product = none)) :=
  C4_attachment [cs "O2", cs "-----", cs "0.0 0.0", cs "-----"] [] (cs "O2")
    (.vec [⟨0, 0⟩, ⟨0, 0⟩]) (by decide)

/-! ## Claim C6 -/

/-- C6 counterexample: the data line `1.0 2.0 3.0` cannot be parsed
into exactly two numeric tokens, yet the parse succeeds — `np.loadtxt`
accepts any uniform column count (here a single three-token row,
squeezed to a flat list), so such a line is not a fatal error. -/
theorem C6_counterexample :
    parse [cs "MOMENTUM", cs "Ar", cs "0.1", cs "-----", cs "1.0 2.0 3.0", cs "-----"] =
      .ok [{ kind := cs "MOMENTUM", target := cs "Ar", mass_ratio := some ⟨1, -1⟩,
             data := .vec [⟨1, 0⟩, ⟨2, 0⟩, ⟨3, 0⟩] }] := by decide

/-- C6 amended: a data-block line containing a token that does not
parse as a float (e.g. the line `1.0 abc`) makes the entire parse fail
with the `MalformedNumericTable` error; no record for that block is
returned and there is no recovery path.  (A line whose token count
merely differs from two but is numeric and uniform across rows is
accepted by `np.loadtxt`; see the counterexample.) -/
theorem C6_bad_token_fatal :
    ∀ r : RKind, ∀ hdr tline tk : Chars, ∀ rest rest2 : List Chars,
      ∀ arg : Option Chars, ∀ toks : List Chars,
      KEYWORDS (pyStrip hdr) = some r →
      readArg (hasArgOf r) rest = .ok (arg, rest2) →
      toks ∈ loadtxtRows (readUntilSep (readUntilSep rest2).2).1 →
      tk ∈ toks → pyFloat tk = none →
      parse (hdr :: tline :: rest) = .error .malformedTable := by
  intro r hdr tline tk rest rest2 arg toks hk harg hmem htk hbad
  exact parse_cons_err hk (runReader_err (readBlock_malformed harg (loadtxt_bad hmem htk hbad)))

theorem C6_bad_token_fatal_witness :
    parse [cs "MOMENTUM", cs "Ar", cs "0.1", cs "-----", cs "1.0 abc", cs "-----"] =
      .error .malformedTable :=
  C6_bad_token_fatal RKind.momentum (cs "MOMENTUM") (cs "Ar") (cs "abc")
    [cs "0.1", cs "-----", cs "1.0 abc", cs "-----"]
    [cs "-----", cs "1.0 abc", cs "-----"]
    (some (cs "0.1")) [cs "1.0", cs "abc"]
    (by decide) (by decide) (by decide) (by decide) (by decide)

/-! ## Claim C7 -/

/-- C7 counterexample: the separator test is `re.match`, which anchors
only at the start of the trimmed line: the line `-----abc`, whose
trimmed content is not solely dashes, nevertheless satisfies the
separator test and terminates a comment/data segment. -/
theorem C7_counterexample :
    isSepLine (cs "-----abc") = true ∧
    (pyStrip (cs "-----abc")).all (fun c => c == '-') = false ∧
    readUntilSep [cs "-----abc", cs "x"] = ([], [cs "x"]) := by
  refine ⟨?_, ?_, ?_⟩ <;> decide

/-- C7 amended: a line satisfies the separator test exactly when its
trimmed content **begins with** five or more consecutive dashes
(trailing non-dash text is ignored by `re.match`); in particular a line
of exactly 5 dashes and a line of 8 dashes with trailing whitespace are
separators, and a line of 4 dashes is not. -/
theorem C7_separator :
    (∀ line : Chars,
      isSepLine line = true ↔
        5 ≤ ((pyStrip line).takeWhile (fun c => c == '-')).length) ∧
    isSepLine (cs "-----") = true ∧
    isSepLine (cs "--------   ") = true ∧
    isSepLine (cs "----") = false := by
  refine ⟨fun line => ?_, by decide, by decide, by decide⟩
  have h : cs "-----" = List.replicate 5 '-' := by decide
  simp only [isSepLine, RE_SEP_match, h]
  exact dash_prefix_iff 5 (pyStrip line)

theorem C7_separator_witness :
    isSepLine (cs "----- BEGIN") = true ↔
      5 ≤ ((pyStrip (cs "----- BEGIN")).takeWhile (fun c => c == '-')).length :=
  C7_separator.1 (cs "----- BEGIN")

/-! ## The XML tree writer (`XMLnode`) -/

/-- The precomputed `indent` table, faithful to the source
including its irregularity: the nine-space entry is missing, so indices
0-8 hold as many spaces as their index while indices 9-15 hold one
space more than their index (10-16 spaces). -/
def indentTab : List Chars :=
  [cs "",
   cs " ",
   cs "  ",
   cs "   ",
   cs "    ",
   cs "     ",
   cs "      ",
   cs "       ",
   cs "        ",
   cs "          ",
   cs "           ",
   cs "            ",
   cs "             ",
   cs "              ",
   cs "               ",
   cs "                "]

/-- Model of `indent[level]`.  The source raises `IndexError` past index 15;
every level arising in the claims is within range, and out-of-range
indices are totalized with `[]` (theorems about indentation carry a
`level ≤ 15`-style bound where it matters). -/
def indentAt (n : Nat) : Chars := indentTab.getD n []

/-- Model of `XMLnode.write_comment`: emits a newline, then `indent[level]`, then `<!--`,
then the value with a single space added on each side only when that
side does not already have one (an empty value is emitted unpadded),
then `-->`. -/
def write_comment (value : Chars) (level : Nat) : Chars :=
  let padded :=
    if value = [] then value
    else
      let v1 := if value.head? = some ' ' then value else ' ' :: value
      if v1.getLast? = some ' ' then v1 else v1 ++ [' ']
  ('\n' :: indentAt level) ++ cs "<!--" ++ padded ++ cs "-->"

/-- Model of `XMLnode.write_attribs`: ` key="value"` per attribute, in order. -/
def write_attribs (attribs : List (Chars × Chars)) : Chars :=
  (attribs.map (fun kv => ' ' :: kv.1 ++ '=' :: '"' :: kv.2 ++ ['"'])).flatten

/-- The `while True` loop of `XMLnode.write_value`: each newline-
terminated piece of `vv` goes on its own output line after a newline and two spaces
plus the indent, the remainder being left-stripped before the next
iteration. -/
def write_value_loop (indnt : Chars) (vv : Chars) : Chars :=
  match hpost : vv.dropWhile (fun c => c ≠ '\n') with
  | [] => '\n' :: ' ' :: ' ' :: (indnt ++ vv)
  | _ :: tail =>
    ('\n' :: ' ' :: ' ' :: (indnt ++ vv.takeWhile (fun c => c ≠ '\n'))) ++
      write_value_loop indnt (pyLStrip tail)
termination_by vv.length
decreasing_by
  have h1 : (pyLStrip tail).length ≤ tail.length :=
    (List.dropWhile_suffix pyIsSpace).length_le
  have h2 : (vv.dropWhile (fun c => c ≠ '\n')).length ≤ vv.length :=
    (List.dropWhile_suffix _).length_le
  rw [hpost] at h2
  simp only [List.length_cons] at h2
  omega

/-- Model of `XMLnode.write_value`: when the left-stripped value contains no
newline the original value is appended verbatim, otherwise the loop
re-indents each line. -/
def write_value (value : Chars) (level : Nat) : Chars :=
  if '\n' ∈ pyLStrip value then write_value_loop (indentAt level) (pyLStrip value)
  else value

/-- A node of the `XMLnode` tree: tag name, value, attribute list in
insertion order, and ordered children.  The `_childmap` index of the
source (last-write-wins lookup by name) is derivable from the ordered
children and is not consulted by anything the claims cover. -/
inductive XNode where
  | mk (nm : Chars) (val : Chars) (attribs : List (Chars × Chars)) (children : List XNode)

/-- Model of the constructor `XMLnode(name, value)`: it left-strips the value. -/
def mkNode (nm v : Chars) : XNode := .mk nm (pyLStrip v) [] []

mutual
/-- Model of `XMLnode._write`.  The source guard `if not self.name: return`
tests the bound method object `self.name` (always truthy), never the
tag string, so it never triggers and has no counterpart here. -/
def nodeWrite : XNode → Nat → Chars
  | .mk nm v attribs children, level =>
    if nm = cs "_comment_" then write_comment v level
    else
      (indentAt level ++ '<' :: nm ++ write_attribs attribs) ++
      (if v.isEmpty && children.isEmpty then cs "/>"
       else ('>' :: (if v.isEmpty then [] else write_value v level)) ++
         childrenWrite children (level + 2) ++
         (if children.isEmpty then [] else '\n' :: indentAt level) ++
         ('<' :: '/' :: nm ++ ['>']))

/-- The `for c in self._children` loop of `_write`: each child is
preceded by a newline and written at `level + 2`. -/
def childrenWrite : List XNode → Nat → Chars
  | [], _ => []
  | c :: rest, level => ('\n' :: nodeWrite c level) ++ childrenWrite rest level
end

example : nodeWrite (.mk (cs "foo") [] [] []) 0 = cs "<foo/>" := by decide
example : nodeWrite (.mk (cs "a") (cs "xy") [(cs "k", cs "v")] []) 2 =
    cs "  <a k=\x22v\x22>xy</a>" := by decide

/-! ## The record-to-element conversion in `main` -/

/-- Model of `str(i)` for the `id` attribute. -/
def natStr (n : Nat) : Chars := (Nat.repr n).data

/-- Models the Python `repr` of a float value as a character string (the
`XMLnode` constructor coerces a non-string value with `repr`).  No
claim inspects the digits of this string — only which child nodes exist
and which record fields their values come from — so any total rendering
of the exact decimal serves. -/
def pyFloatRepr (q : Dec) : Chars :=
  (Int.repr ( q.m)).data ++ 'e' :: (Int.repr ( q.e)).data

/-- Models the `%10.6E` cell formatting of the data loop in `main`
(digit-level fidelity is not needed by any claim: none inspects the
formatted table text). -/
def fmtE (q : Dec) : Chars := pyFloatRepr q ++ [' ']

/-- One iteration of the data loop of `main` on a row `j`: `j[0]` is read
first, then `j[1]` (`IndexError` when the row is shorter). -/
def dataRowText (row : List Dec) : Except PErr Chars :=
  match row.get? 0 with
  | none => .error .indexError
  | some a =>
    match row.get? 1 with
    | none => .error .indexError
    | some b => .ok (fmtE a ++ fmtE b ++ ['\n'])

/-- Model of the data loop of `main` over the `data` key: iterating a squeezed scalar
raises `TypeError`, as does indexing the bare floats of a squeezed
one-dimensional list (an empty list runs zero iterations); only a
two-dimensional list with rows of length at least two succeeds. -/
def dataText : NpData → Except PErr Chars
  | .scalar _ => .error .typeError
  | .vec [] => .ok []
  | .vec (_ :: _) => .error .typeError
  | .mat rows =>
    match rows.mapM dataRowText with
    | .error e => .error e
    | .ok parts => .ok parts.flatten

/-- The Python substring test `haystack.find(needle) != -1`. -/
def subFind (needle : Chars) : Chars → Bool
  | [] => needle.isEmpty
  | c :: t => List.isPrefixOf needle (c :: t) || subFind needle t

/-- Model of a dictionary read on a possibly-missing key. -/
def getKey {α : Type} (o : Option α) : Except PErr α :=
  match o with
  | none => .error .keyError
  | some a => .ok a

/-- The per-record conversion of `main`: builds the `process` element
for record `p` with positional index `i`.  Branch selection mirrors the
substring test in the source, `find` on the kind compared with `-1` (`is not` on a
small cached integer behaves as `!=`), hence `isInfixOf`.  Children are
appended in source order: `reactants`, then the branch-specific
children, then `data`; the `reversible` attribute is inserted after
`id` and `type`. -/
def buildProcess (i : Nat) (p : ProcessRecord) : Except PErr XNode :=
  let atts0 : List (Chars × Chars) := [(cs "id", natStr i), (cs "type", p.kind)]
  let reactants := mkNode (cs "reactants") ( p.target)
  if subFind (cs "EXCITATION") ( p.kind) then
    match getKey ( p.product) with
    | .error e => .error e
    | .ok pr =>
      match getKey ( p.threshold) with
      | .error e => .error e
      | .ok th =>
        let withRev :=
          match wratioOf p with
          | some w =>
            (atts0 ++ [(cs "reversible", cs "yes")],
             [reactants, mkNode (cs "products") pr,
              mkNode (cs "threshold") (pyFloatRepr th),
              mkNode (cs "weight_ratio") (pyFloatRepr w)])
          | none =>
            (atts0,
             [reactants, mkNode (cs "products") pr,
              mkNode (cs "threshold") (pyFloatRepr th)])
        match dataText ( p.data) with
        | .error e => .error e
        | .ok dt =>
          .ok (.mk (cs "process") [] withRev.1 (withRev.2 ++ [mkNode (cs "data") dt]))
  else if subFind (cs "IONIZATION") ( p.kind) then
    match getKey ( p.product) with
    | .error e => .error e
    | .ok pr =>
      match getKey ( p.threshold) with
      | .error e => .error e
      | .ok th =>
        match dataText ( p.data) with
        | .error e => .error e
        | .ok dt =>
          .ok (.mk (cs "process") [] atts0
            [reactants, mkNode (cs "products") pr,
             mkNode (cs "threshold") (pyFloatRepr th), mkNode (cs "data") dt])
  else if subFind (cs "ATTACHMENT") ( p.kind) then
    match getKey ( p.product) with
    | .error e => .error e
    | .ok pr =>
      match getKey ( p.threshold) with
      | .error e => .error e
      | .ok th =>
        match dataText ( p.data) with
        | .error e => .error e
        | .ok dt =>
          .ok (.mk (cs "process") [] atts0
            [reactants, mkNode (cs "products") pr,
             mkNode (cs "threshold") (pyFloatRepr th), mkNode (cs "data") dt])
  else
    match getKey (mratioOf p) with
    | .error e => .error e
    | .ok mr =>
      match dataText ( p.data) with
      | .error e => .error e
      | .ok dt =>
        .ok (.mk (cs "process") [] atts0
          [reactants, mkNode (cs "products") ( p.target),
           mkNode (cs "mass_ratio") (pyFloatRepr mr), mkNode (cs "data") dt])

/-! ## Claim C5 -/

/-- C5 counterexample: rendering an ATTACHMENT record whose target line
contained no arrow — and which therefore has no `product` key — does
not fall back to the target: `main` reads the `product` key
unconditionally in the ATTACHMENT branch, so the conversion fails with
a `KeyError` and no `products` child (indeed no process element at all)
is produced. -/
theorem C5_counterexample :
    buildProcess 0
      { kind := cs "ATTACHMENT", target := cs "O2",
        threshold := some ⟨0, 0⟩, data := .vec [⟨0, 0⟩, ⟨0, 0⟩] } =
      .error .keyError := by
  have e1 : subFind (cs "EXCITATION") (cs "ATTACHMENT") = false := by decide
  have e2 : subFind (cs "IONIZATION") (cs "ATTACHMENT") = false := by decide
  have e3 : subFind (cs "ATTACHMENT") (cs "ATTACHMENT") = true := by decide
  simp [buildProcess, e1, e2, e3, getKey]

/-- C5 amended: an ATTACHMENT record that has a `product` key yields a
process element with a `products` child (value = the product) and a
`threshold` child; an ATTACHMENT record without a `product` key (the
non-arrow variant) makes the rendering fail with a `KeyError` — there
is no fallback of `products` to the target of the record. -/
theorem C5_attachment_render :
    ∀ i : Nat, ∀ p : ProcessRecord, ProcessRecord.kind p = cs "ATTACHMENT" →
      (( p.product = none) → buildProcess i p = .error .keyError) ∧
      (∀ pr : Chars, ∀ th : Dec, ∀ dt : Chars,
        p.product = some pr → p.threshold = some th → dataText ( p.data) = .ok dt →
        buildProcess i p = .ok (.mk (cs "process") []
          [(cs "id", natStr i), (cs "type", cs "ATTACHMENT")]
          [mkNode (cs "reactants") ( p.target), mkNode (cs "products") pr,
           mkNode (cs "threshold") (pyFloatRepr th), mkNode (cs "data") dt])) := by
  intro i p hk
  have e1 : subFind (cs "EXCITATION") (cs "ATTACHMENT") = false := by decide
  have e2 : subFind (cs "IONIZATION") (cs "ATTACHMENT") = false := by decide
  have e3 : subFind (cs "ATTACHMENT") (cs "ATTACHMENT") = true := by decide
  constructor
  · intro hprod
    simp [buildProcess, hk, e1, e2, e3, hprod, getKey]
  · intro pr th dt hprod hth hdt
    simp [buildProcess, hk, e1, e2, e3, hprod, hth, hdt, getKey]

/-- Concrete arrow-variant ATTACHMENT record for the C5 witness. -/
def recC5 : ProcessRecord :=
  { kind := cs "ATTACHMENT", target := cs "O2", product := some (cs "O2^-"),
    threshold := some ⟨0, 0⟩, data := .mat [[⟨0, 0⟩, ⟨0, 0⟩], [⟨1, 0⟩, ⟨0, 0⟩]] }

theorem C5_attachment_render_witness :
    buildProcess 1
      { kind := cs "ATTACHMENT", target := cs "O2",
        threshold := some ⟨0, 0⟩, data := .vec [] } = .error .keyError ∧
    buildProcess 2 recC5 = .ok (.mk (cs "process") []
      [(cs "id", natStr 2), (cs "type", cs "ATTACHMENT")]
      [mkNode (cs "reactants") (cs "O2"), mkNode (cs "products") (cs "O2^-"),
       mkNode (cs "threshold") (pyFloatRepr ⟨0, 0⟩),
       mkNode (cs "data") (fmtE ⟨0, 0⟩ ++ fmtE ⟨0, 0⟩ ++ ['\n'] ++
         (fmtE ⟨1, 0⟩ ++ fmtE ⟨0, 0⟩ ++ ['\n']))]) := by
  constructor
  · exact (C5_attachment_render 1 _ (by decide)).1 (by decide)
  · exact (C5_attachment_render 2 recC5 (by decide)).2 (cs "O2^-") ⟨0, 0⟩
      (fmtE ⟨0, 0⟩ ++ fmtE ⟨0, 0⟩ ++ ['\n'] ++ (fmtE ⟨1, 0⟩ ++ fmtE ⟨0, 0⟩ ++ ['\n']))
      (by decide) (by decide) (by decide)

/-! ## Claim C8 -/

/-- C8 counterexample: serializing an element `a` with a single child
`b` at level 0 indents the child by two spaces, not four: the indent
table advances one space per level and children are written at
`level + 2`. -/
theorem C8_counterexample :
    nodeWrite (.mk (cs "a") [] [] [.mk (cs "b") [] [] []]) 0 = cs "<a>\n  <b/>\n</a>" ∧
    nodeWrite (.mk (cs "a") [] [] [.mk (cs "b") [] [] []]) 0 ≠
      cs "<a>\n    <b/>\n</a>" := by
  constructor <;> decide

/-- C8 amended: children are rendered at `level + 2` (level 0 at the
root), but the indent table holds one space per level, so each
structural depth step indents the child by **2** more spaces than its
parent (for levels up to 8, the regular region of the table; past index 8
the table is irregular, holding index+1 spaces). -/
theorem C8_indent :
    ∀ level : Nat, level ≤ 6 →
      (indentAt (level + 2)).length = (indentAt level).length + 2 ∧
      nodeWrite (.mk (cs "a") [] [] [.mk (cs "b") [] [] []]) level =
        indentAt level ++ cs "<a>" ++ ('\n' :: indentAt (level + 2)) ++ cs "<b/>" ++
          ('\n' :: indentAt level) ++ cs "</a>" := by
  intro level h
  interval_cases level <;> exact ⟨by decide, by decide⟩

theorem C8_indent_witness :
    (indentAt 2).length = (indentAt 0).length + 2 ∧
    nodeWrite (.mk (cs "a") [] [] [.mk (cs "b") [] [] []]) 0 =
      indentAt 0 ++ cs "<a>" ++ ('\n' :: indentAt 2) ++ cs "<b/>" ++
        ('\n' :: indentAt 0) ++ cs "</a>" := by
  have h := C8_indent 0 (by decide)
  simpa using h

/-! ## Claim C9 -/

/-- C9 counterexample: `write_comment` does not trim the stored value;
it only adds a space on a side that lacks one.  A stored value with two
trailing spaces (values are only left-stripped at construction, so
trailing spaces persist) renders with both spaces kept, not as the
claimed single-space form. -/
theorem C9_counterexample :
    write_comment (cs "hello  ") 0 = cs "\n<!-- hello  -->" ∧
    write_comment (cs "hello  ") 0 ≠ cs "\n<!-- hello -->" := by
  constructor <;> decide

/-- C9 amended: a comment node renders as `<!--` + value + `-->` on its
own line, with a single space added on each side of the value only if
that side does not already have one (existing spaces are preserved, not
trimmed); for a value with no leading or trailing space the rendering
is exactly `<!-- value -->`, so `hello` gives `<!-- hello -->`. -/
theorem C9_comment_render :
    ∀ v : Chars, ∀ level : Nat, level ≤ 15 → v ≠ [] →
      v.head? ≠ some ' ' → v.getLast? ≠ some ' ' →
      write_comment v level =
        ('\n' :: indentAt level) ++ cs "<!-- " ++ v ++ cs " -->" := by
  intro v level hlev hne hh hl
  have h1 : cs "<!-- " = cs "<!--" ++ [' '] := by decide
  have h2 : cs " -->" = ' ' :: cs "-->" := by decide
  cases v with
  | nil => exact absurd rfl hne
  | cons x xs =>
    simp only [write_comment, if_neg hne, if_neg hh]
    rw [if_neg (by rw [List.getLast?_cons_cons]; exact hl)]
    rw [h1, h2]
    simp

theorem C9_comment_render_witness :
    write_comment (cs "hello") 0 =
      ('\n' :: indentAt 0) ++ cs "<!-- " ++ cs "hello" ++ cs " -->" ∧
    write_comment (cs "hello") 0 = cs "\n<!-- hello -->" := by
  have h := C9_comment_render (cs "hello") 0 (by decide) (by decide) (by decide) (by decide)
  exact ⟨h, h.trans (by decide)⟩
